import Mathlib

set_option maxRecDepth 100000

attribute [local semireducible] Rat.add Rat.sub Rat.mul Rat.inv

/-!
Verification of the recommendation fusion and A/B-testing engine
(`edurec`): a shallow embedding in Lean 4 of the code in
`src/edurec/monitoring/ab_testing.py`, `src/edurec/models/hybrid.py` and
the interest-based fallback tier of `src/edurec/api/main.py`, together
with theorems settling the specification claims about them.

Conventions of the embedding:
* Python `float` values that the claims reason about exactly (scores,
  probabilities, weights) are modelled as `Rat`.
* Python dicts are modelled as insertion-ordered association lists
  (`List (String × α)`) with lookup by first occurrence, matching
  Python 3.7+ dict semantics; `dict[k] = v` updates in place when the
  key exists and appends otherwise.
* Side channels that no claim reads (logging, Prometheus metric label
  values, Redis persistence) are either dropped or, where a claim is
  about recorded events, kept as an explicit append-only log field.
-/

/-! ## Bytes of a Python string (`str.encode()`, UTF-8) -/

/-- UTF-8 encoding of a single Unicode code point, as byte values.
Mirrors Python's `str.encode()` per code point. -/
def charUtf8 (n : Nat) : List Nat :=
  if n < 0x80 then [n]
  else if n < 0x800 then [0xC0 + n / 64, 0x80 + n % 64]
  else if n < 0x10000 then
    [0xE0 + n / 4096, 0x80 + (n / 64) % 64, 0x80 + n % 64]
  else
    [0xF0 + n / 262144, 0x80 + (n / 4096) % 64, 0x80 + (n / 64) % 64, 0x80 + n % 64]

/-- The UTF-8 bytes of a string, as `Nat` byte values: Python's
`s.encode()`. -/
def strBytes (s : String) : List Nat :=
  (s.data.map (fun c => charUtf8 c.toNat)).flatten

example : strBytes "abc" = [97, 98, 99] := by decide

/-! ## MD5 (`hashlib.md5`)

Reference implementation of MD5 over byte lists, operating on `Nat`
with explicit reduction `% 2^32`.  Python's
`int(hashlib.md5(x).hexdigest(), 16)` is `md5Int x` below. -/

/-- 32-bit truncation. -/
def m32 (x : Nat) : Nat := x % 4294967296

/-- 32-bit left rotation (operands assumed `< 2^32`). -/
def rotl32 (x c : Nat) : Nat := m32 ((x <<< c) ||| (x >>> (32 - c)))

/-- 32-bit bitwise complement (operand assumed `< 2^32`). -/
def not32 (x : Nat) : Nat := x ^^^ 0xFFFFFFFF

/-- The MD5 sine-derived round constants `K[0..63]`. -/
def md5K : List Nat :=
  [0xd76aa478, 0xe8c7b756, 0x242070db, 0xc1bdceee, 0xf57c0faf, 0x4787c62a, 0xa8304613, 0xfd469501,
   0x698098d8, 0x8b44f7af, 0xffff5bb1, 0x895cd7be, 0x6b901122, 0xfd987193, 0xa679438e, 0x49b40821,
   0xf61e2562, 0xc040b340, 0x265e5a51, 0xe9b6c7aa, 0xd62f105d, 0x02441453, 0xd8a1e681, 0xe7d3fbc8,
   0x21e1cde6, 0xc33707d6, 0xf4d50d87, 0x455a14ed, 0xa9e3e905, 0xfcefa3f8, 0x676f02d9, 0x8d2a4c8a,
   0xfffa3942, 0x8771f681, 0x6d9d6122, 0xfde5380c, 0xa4beea44, 0x4bdecfa9, 0xf6bb4b60, 0xbebfbc70,
   0x289b7ec6, 0xeaa127fa, 0xd4ef3085, 0x04881d05, 0xd9d4d039, 0xe6db99e5, 0x1fa27cf8, 0xc4ac5665,
   0xf4292244, 0x432aff97, 0xab9423a7, 0xfc93a039, 0x655b59c3, 0x8f0ccc92, 0xffeff47d, 0x85845dd1,
   0x6fa87e4f, 0xfe2ce6e0, 0xa3014314, 0x4e0811a1, 0xf7537e82, 0xbd3af235, 0x2ad7d2bb, 0xeb86d391]

/-- The MD5 per-round left-rotation amounts `s[0..63]`. -/
def md5S : List Nat :=
  [7, 12, 17, 22, 7, 12, 17, 22, 7, 12, 17, 22, 7, 12, 17, 22,
   5, 9, 14, 20, 5, 9, 14, 20, 5, 9, 14, 20, 5, 9, 14, 20,
   4, 11, 16, 23, 4, 11, 16, 23, 4, 11, 16, 23, 4, 11, 16, 23,
   6, 10, 15, 21, 6, 10, 15, 21, 6, 10, 15, 21, 6, 10, 15, 21]

/-- Little-endian bytes of a value (fixed width `w` bytes). -/
def leBytes (w n : Nat) : List Nat :=
  (List.range w).map (fun i => (n >>> (8 * i)) % 256)

/-- MD5 message padding: append `0x80`, zero bytes to 56 mod 64, then
the 64-bit little-endian bit length. -/
def md5Pad (msg : List Nat) : List Nat :=
  let padZeros := (120 - (msg.length + 1) % 64) % 64
  msg ++ [0x80] ++ List.replicate padZeros 0 ++ leBytes 8 ((msg.length * 8) % 18446744073709551616)

/-- The `g`-th 32-bit little-endian word of a 64-byte chunk. -/
def md5Word (chunk : List Nat) (g : Nat) : Nat :=
  chunk.getD (4 * g) 0 + 256 * chunk.getD (4 * g + 1) 0 +
    65536 * chunk.getD (4 * g + 2) 0 + 16777216 * chunk.getD (4 * g + 3) 0

/-- One MD5 round `i` on state `(A, B, C, D)` for a chunk. -/
def md5Round (chunk : List Nat) (st : Nat × Nat × Nat × Nat) (i : Nat) :
    Nat × Nat × Nat × Nat :=
  let (a, b, c, d) := st
  let fg : Nat × Nat :=
    if i < 16 then ((b &&& c) ||| (not32 b &&& d), i)
    else if i < 32 then ((d &&& b) ||| (not32 d &&& c), (5 * i + 1) % 16)
    else if i < 48 then (b ^^^ c ^^^ d, (3 * i + 5) % 16)
    else (c ^^^ (b ||| not32 d), (7 * i) % 16)
  let f := m32 (fg.1 + a + md5K.getD i 0 + md5Word chunk fg.2)
  (d, m32 (b + rotl32 f (md5S.getD i 0)), b, c)

/-- Process one 64-byte chunk, updating the four 32-bit state words. -/
def md5Chunk (st : Nat × Nat × Nat × Nat) (chunk : List Nat) :
    Nat × Nat × Nat × Nat :=
  let (a0, b0, c0, d0) := st
  let (a, b, c, d) := (List.range 64).foldl (md5Round chunk) (a0, b0, c0, d0)
  (m32 (a0 + a), m32 (b0 + b), m32 (c0 + c), m32 (d0 + d))

/-- Split a byte list into 64-byte chunks (fuel-based structural
recursion so the kernel can evaluate it; `fuel ≥ l.length` suffices). -/
def md5ChunksAux : Nat → List Nat → List (List Nat)
  | 0, _ => []
  | _, [] => []
  | fuel + 1, l => l.take 64 :: md5ChunksAux fuel (l.drop 64)

/-- Split a byte list into 64-byte chunks. -/
def md5Chunks (l : List Nat) : List (List Nat) :=
  md5ChunksAux l.length l

/-- The MD5 digest of a byte list, as the 16 digest bytes. -/
def md5Digest (msg : List Nat) : List Nat :=
  let (a, b, c, d) :=
    (md5Chunks (md5Pad msg)).foldl md5Chunk
      (0x67452301, 0xefcdab89, 0x98badcfe, 0x10325476)
  leBytes 4 a ++ leBytes 4 b ++ leBytes 4 c ++ leBytes 4 d

/-- Python's `int(hashlib.md5(msg).hexdigest(), 16)`: the digest bytes
read as a big-endian 128-bit integer. -/
def md5Int (msg : List Nat) : Nat :=
  (md5Digest msg).foldl (fun acc b => acc * 256 + b) 0

example : md5Int (strBytes "") = 0xd41d8cd98f00b204e9800998ecf8427e := by decide

example : md5Int (strBytes "abc") = 0x900150983cd24fb0d6963f7d28e17f72 := by decide

/-! ## Python dicts as insertion-ordered association lists -/

/-- Python dict assignment `d[k] = v`: update an existing key in place,
else append at the end (Python 3.7+ insertion-order semantics). -/
def dictInsert {α : Type} (d : List (String × α)) (k : String) (v : α) :
    List (String × α) :=
  match d with
  | [] => [(k, v)]
  | (k', v') :: rest =>
    if k' = k then (k, v) :: rest else (k', v') :: dictInsert rest k v

/-! ## `ab_testing.py`: experiment configuration -/

/-- `ExperimentConfig` dataclass of `ab_testing.py`.  `traffic_split` is
the insertion-ordered dict variant ↦ probability; dates are kept as
opaque strings (no claim inspects them). -/
structure ExperimentConfig where
  name : String
  description : String
  variants : List String
  traffic_split : List (String × Rat)
  start_date : String
  end_date : Option String
  is_active : Bool
  conversion_events : List String
deriving DecidableEq, Repr

/-- Sum of the traffic-split probabilities
(`sum(self.traffic_split.values())`). -/
def splitTotal (traffic_split : List (String × Rat)) : Rat :=
  (traffic_split.map Prod.snd).sum

/-- `ExperimentConfig.__post_init__`: default `conversion_events` to
`["enroll", "complete"]` and raise `ValueError` unless the traffic
split sums to 1.0 within 0.01. -/
def mkExperimentConfig (name description : String) (variants : List String)
    (traffic_split : List (String × Rat)) (start_date : String)
    (end_date : Option String) (is_active : Bool)
    (conversion_events : Option (List String)) :
    Except String ExperimentConfig :=
  if |splitTotal traffic_split - 1| > 1/100 then
    Except.error "Traffic split must sum to 1.0"
  else
    Except.ok
      ⟨name, description, variants, traffic_split, start_date, end_date,
        is_active, conversion_events.getD ["enroll", "complete"]⟩

/-! ## `ab_testing.py`: the `ABTestManager` state and operations -/

/-- The in-memory state of `ABTestManager`: the experiment registry and
the per-user assignment cache.  `conversion_log` models the append-only
stream of conversion events emitted to the metrics collector / Redis by
`record_conversion` (entries are `(experiment_name, variant,
conversion_type)`); no other modelled operation reads it. -/
structure ABTestManager where
  experiments : List (String × ExperimentConfig)
  user_assignments : List (String × List (String × String))
  conversion_log : List (String × String × String)
deriving DecidableEq, Repr

/-- `ABTestManager.create_experiment`: refuse a duplicate name
(returning `False`), else insert the config into the registry. -/
def create_experiment (m : ABTestManager) (config : ExperimentConfig) :
    Bool × ABTestManager :=
  if (m.experiments.lookup config.name).isSome then (false, m)
  else (true, { m with experiments := dictInsert m.experiments config.name config })

/-- `ratio = int(md5(user_id + ":" + name).hexdigest(), 16) % 10000 / 10000.0`. -/
def hashFrac (user_id name : String) : Rat :=
  ((md5Int (strBytes (user_id ++ ":" ++ name)) % 10000 : Nat) : Rat) / 10000

/-- The cumulative walk in `_assign_user_to_variant`: return the first
variant whose cumulative probability satisfies
`hash_ratio <= cumulative_prob`, starting from accumulator `cum`. -/
def pickVariant (cum : Rat) (splits : List (String × Rat)) (ratio : Rat) :
    Option String :=
  match splits with
  | [] => none
  | (v, p) :: rest =>
    if ratio ≤ cum + p then some v else pickVariant (cum + p) rest ratio

/-- `ABTestManager._assign_user_to_variant`: hash-based cumulative
bucketing; if the walk falls through, the code returns
`list(experiment.traffic_split.keys())[0]`, i.e. the FIRST declared
variant (on an empty split Python would raise `IndexError`; we return
`""` there, unreachable for validated configs). -/
def assign_user_to_variant (user_id : String) (experiment : ExperimentConfig) :
    String :=
  match pickVariant 0 experiment.traffic_split (hashFrac user_id experiment.name) with
  | some v => v
  | none =>
    match experiment.traffic_split with
    | (v, _) :: _ => v
    | [] => ""

/-- The cache consultation in `get_user_variant`: `user_id in
self.user_assignments and experiment_name in self.user_assignments[user_id]`. -/
def cachedVariant (m : ABTestManager) (user_id experiment_name : String) :
    Option String :=
  (m.user_assignments.lookup user_id).bind (fun d => d.lookup experiment_name)

/-- `ABTestManager.get_user_variant`, returning the variant together
with the updated manager state. -/
def get_user_variant (m : ABTestManager) (user_id experiment_name : String) :
    String × ABTestManager :=
  match m.experiments.lookup experiment_name with
  | none => ("control", m)
  | some experiment =>
    if experiment.is_active = false then ("control", m)
    else
      match cachedVariant m user_id experiment_name with
      | some variant => (variant, m)
      | none =>
        let variant := assign_user_to_variant user_id experiment
        let userDict := (m.user_assignments.lookup user_id).getD []
        let newAssignments :=
          dictInsert m.user_assignments user_id
            (dictInsert userDict experiment_name variant)
        (variant, { m with user_assignments := newAssignments })

/-- `ABTestManager.record_conversion`: resolve the variant through
`get_user_variant` (mutating the cache), then append the conversion
event to the recorded stream. -/
def record_conversion (m : ABTestManager)
    (user_id experiment_name conversion_type : String) : ABTestManager :=
  let r := get_user_variant m user_id experiment_name
  { r.2 with conversion_log :=
      r.2.conversion_log ++ [(experiment_name, r.1, conversion_type)] }

/-- The fields of `get_experiment_stats`'s result that the claims are
about: per-variant assignment counts and the per-variant conversion
numbers (`enroll`, `complete`). -/
structure ExperimentStats where
  assignments : List (String × Nat)
  conversions : List (String × Rat × Rat)
deriving DecidableEq, Repr

/-- The assignment-count aggregation loop of `get_experiment_stats`:
walk `self.user_assignments.values()` in insertion order, counting the
cached variant of each user for this experiment. -/
def variantCounts (m : ABTestManager) (experiment_name : String) :
    List (String × Nat) :=
  m.user_assignments.foldl
    (fun counts ua =>
      match ua.2.lookup experiment_name with
      | some variant => dictInsert counts variant ((counts.lookup variant).getD 0 + 1)
      | none => counts) []

/-- `ABTestManager.get_experiment_stats` (the `assignments` and
`conversions` entries of the returned dict; `{}` for an unknown
experiment is `none`).  The code computes the conversion numbers as
`variant_counts.get(variant, 0) * 0.3` (enroll) and `* 0.1` (complete),
labelled "mock data for now" — it does not read the recorded
conversion events. -/
def get_experiment_stats (m : ABTestManager) (experiment_name : String) :
    Option ExperimentStats :=
  match m.experiments.lookup experiment_name with
  | none => none
  | some experiment =>
    let vc := variantCounts m experiment_name
    some
      { assignments := vc,
        conversions := experiment.traffic_split.map
          (fun vp =>
            (vp.1, (((vc.lookup vp.1).getD 0 : Nat) : Rat) * (3/10),
              (((vc.lookup vp.1).getD 0 : Nat) : Rat) * (1/10))) }

/-! ## `hybrid.py`: score normalization and rank fusion

Adapter outputs are Python dicts; we model exactly the keys the fusion
code reads (`item_id`, `score`, `similarity_score`), each optional as
under `dict.get`. -/

/-- One entry of an adapter output list, with the keys read by
`_combine_recommendations` / `_generate_explanations`. -/
structure AdapterRec where
  item_id : Option String
  score : Option Rat
  similarity_score : Option Rat
deriving DecidableEq, Repr

/-- The per-approach raw score selection of `_combine_recommendations`
(lines 313–321): `similarity_score` for "content", `score` otherwise,
defaulting to 0.0. -/
def recRawScore (approach : String) (rec : AdapterRec) : Rat :=
  if approach = "als" then rec.score.getD 0
  else if approach = "content" then rec.similarity_score.getD 0
  else if approach = "fallback" then rec.score.getD 0
  else rec.score.getD 0

/-- `HybridRecommender._normalize_score`: clamp to [0,1], shifting ALS
scores by `(score + 1) / 2` first. -/
def normalize_score (score : Rat) (approach : String) : Rat :=
  if approach = "als" then max 0 (min 1 ((score + 1) / 2))
  else if approach = "content" then max 0 (min 1 score)
  else max 0 (min 1 score)

/-- `combined_scores[item_id] += v` on the `defaultdict(float)`:
a missing key reads as 0 and is inserted at the end. -/
def addScore (d : List (String × Rat)) (k : String) (v : Rat) :
    List (String × Rat) :=
  dictInsert d k ((d.lookup k).getD 0 + v)

/-- The weight chosen for an approach in `_combine_recommendations`:
"fallback" defaults to 1.0 when absent, any other approach not in
`weights` is skipped (`none`). -/
def approachWeight (weights : List (String × Rat)) (approach : String) :
    Option Rat :=
  if approach = "fallback" then some ((weights.lookup "fallback").getD 1)
  else weights.lookup approach

/-- The body of the inner `for rec in recs` loop of
`_combine_recommendations`: skip entries with a falsy `item_id`, else
add `normalized_score * weight` to the accumulator dict. -/
def scoreStep (approach : String) (weight : Rat)
    (d : List (String × Rat)) (rec : AdapterRec) : List (String × Rat) :=
  match rec.item_id with
  | none => d
  | some item =>
    if item = "" then d
    else addScore d item (normalize_score (recRawScore approach rec) approach * weight)

/-- The inner accumulation of `_combine_recommendations` for one
approach: skip an empty list and approaches without a weight. -/
def combineApproach (weights : List (String × Rat))
    (acc : List (String × Rat)) (entry : String × List AdapterRec) :
    List (String × Rat) :=
  if entry.2 = [] then acc
  else
    match approachWeight weights entry.1 with
    | none => acc
    | some weight => entry.2.foldl (scoreStep entry.1 weight) acc

/-- `HybridRecommender._combine_recommendations`: fold the per-approach
accumulation over the gathered recommendation dict in insertion order. -/
def combine_recommendations (recommendations : List (String × List AdapterRec))
    (weights : List (String × Rat)) : List (String × Rat) :=
  recommendations.foldl (combineApproach weights) []

/-- Stable descending insertion of one scored item: the new element
goes before the first existing element whose score is `≤` its own, so
earlier elements win ties. -/
def insertDesc (x : String × Rat) : List (String × Rat) → List (String × Rat)
  | [] => [x]
  | y :: ys => if y.2 ≤ x.2 then x :: y :: ys else y :: insertDesc x ys

/-- Stable sort by score descending: extensionally equal to Python's
stable `sorted(items, key=lambda x: x[1], reverse=True)` (equal scores
keep their original relative order). -/
def sortDesc (l : List (String × Rat)) : List (String × Rat) :=
  l.foldr insertDesc []

/-- `HybridRecommender._get_top_recommendations`: stable sort by score
descending, then take the first `N`. -/
def get_top_recommendations (combined_scores : List (String × Rat)) (N : Nat) :
    List (String × Rat) :=
  (sortDesc combined_scores).take N

/-- `rec.get('item_id') == item_id` membership test used by
`_generate_explanations`. -/
def containsItem (recs : List AdapterRec) (item_id : String) : Bool :=
  recs.any (fun r => r.item_id == some item_id)

/-- The guard pattern of `_generate_explanations`: the approach is
present in the gathered dict, its weight is positive, and the item
appears in its list. -/
def approachHit (recommendations : List (String × List AdapterRec))
    (weights : List (String × Rat)) (approach item_id : String) : Bool :=
  match recommendations.lookup approach with
  | none => false
  | some recs =>
    if (weights.lookup approach).getD 0 > 0 then containsItem recs item_id
    else false

/-- The pandas lookups of `hybrid.py`, abstracted: `skill_match` is
`_get_skill_match_explanation` and `course_info` is `_get_course_info`,
both over `courses_df`; `has_courses` is `courses_df is not None`.
When `has_courses = false` both lookups return `none` (the Python
methods return `None` immediately). -/
structure ExplanationCtx where
  skill_match : String → Option String
  course_info : String → Option String
  has_courses : Bool

/-- The context of a recommender with no course data set
(`courses_df is None`). -/
def noCoursesCtx : ExplanationCtx :=
  { skill_match := fun _ => none, course_info := fun _ => none, has_courses := false }

/-- `HybridRecommender._generate_explanations`. -/
def generate_explanations (ctx : ExplanationCtx) (item_id : String)
    (recommendations : List (String × List AdapterRec))
    (weights : List (String × Rat)) : List String :=
  let e0 : List String := []
  let e1 := if approachHit recommendations weights "als" item_id then
      e0 ++ ["similar_users_enrolled"] else e0
  let e2 := if approachHit recommendations weights "content" item_id then
      e1 ++ [match ctx.skill_match item_id with
             | some s => "skill_match: " ++ s
             | none => "similar_course_content"]
    else e1
  let e3 := if approachHit recommendations weights "pop" item_id then
      e2 ++ ["popular"] else e2
  let e4 := if approachHit recommendations weights "fallback" item_id then
      e3 ++ ["recommended_for_you"] else e3
  if e4 = [] then
    if ctx.has_courses then
      match ctx.course_info item_id with
      | some info => ["course_match: " ++ info]
      | none => ["recommended_for_you"]
    else ["recommended_for_you"]
  else e4

/-- The final recommendation dict built by `_add_explanations`. -/
structure Recommendation where
  item_id : String
  score : Rat
  rank : Nat
  model : String
  explanations : List String
  all_explanations : List String
deriving DecidableEq, Repr

/-- The record built for one `(rank, (item_id, combined_score))` in the
loop of `_add_explanations` (the `[:2]` slice of the explanations is
`List.take 2`). -/
def buildRec (ctx : ExplanationCtx)
    (recommendations : List (String × List AdapterRec))
    (weights : List (String × Rat)) (re : Nat × (String × Rat)) :
    Recommendation :=
  let explanations := generate_explanations ctx re.2.1 recommendations weights
  { item_id := re.2.1, score := re.2.2, rank := re.1, model := "Hybrid",
    explanations := explanations.take 2, all_explanations := explanations }

/-- `HybridRecommender._add_explanations`: enumerate the top list from
rank 1 (`enumerate(top_recommendations, 1)`) and build the final
records. -/
def add_explanations (ctx : ExplanationCtx)
    (top_recommendations : List (String × Rat))
    (recommendations : List (String × List AdapterRec))
    (weights : List (String × Rat)) : List Recommendation :=
  (top_recommendations.enumFrom 1).map (buildRec ctx recommendations weights)

/-- The fusion tail of `hybrid_recommend` (lines 216–222): combine the
gathered per-approach lists, rank, and annotate. -/
def fuseGathered (ctx : ExplanationCtx)
    (recommendations : List (String × List AdapterRec))
    (weights : List (String × Rat)) (N : Nat) : List Recommendation :=
  add_explanations ctx
    (get_top_recommendations (combine_recommendations recommendations weights) N)
    recommendations weights

/-! ## `hybrid.py`: `hybrid_recommend` proper -/

/-- `f"fallback_course_{i:03d}"` zero padding. -/
def pad3 (n : Nat) : String :=
  if n < 10 then "00" ++ toString n
  else if n < 100 then "0" ++ toString n
  else toString n

/-- `HybridRecommender._create_fallback_recommendations`: `N` dummy
items named `fallback_course_001`, ... each with score 0.5 (the `rank`
and `model` keys of the Python dicts are not read downstream and are
not modelled). -/
def create_fallback_recommendations (user_id : String) (N : Nat) :
    List AdapterRec :=
  (List.range N).map
    (fun i => { item_id := some ("fallback_course_" ++ pad3 (i + 1)),
                score := some (1/2), similarity_score := none })

/-- Python's `round(x, 10)` transplanted to `Rat`: round half to even
at the 10th decimal digit (the binary-float representation error of the
actual `float` arguments is not modelled; every claim evaluates this on
decimally-exact values where it is the identity). -/
def pyRound10 (x : Rat) : Rat :=
  let y := x * 10000000000
  let f := y.floor
  let r := y - f
  let i : Int :=
    if r < 1/2 then f
    else if r > 1/2 then f + 1
    else if f % 2 = 0 then f else f + 1
  (i : Rat) / 10000000000

/-- The weight-normalization step (lines 155–158 and the constructor):
divide by the total and round to 10 digits — skipped entirely unless
the total is positive. -/
def normalizeWeights (weights : List (String × Rat)) : List (String × Rat) :=
  let total := splitTotal weights
  if total > 0 then weights.map (fun kv => (kv.1, pyRound10 (kv.2 / total)))
  else weights

/-- The default weights of the constructor (`{"als": 0.7, "content":
0.2, "pop": 0.1}`), applied when the caller passes none or an empty
dict, then normalized. -/
def initDefaultWeights (default_weights : Option (List (String × Rat))) :
    List (String × Rat) :=
  let dw := match default_weights with
    | none => [("als", 7/10), ("content", 2/10), ("pop", 1/10)]
    | some w =>
      if w = [] then [("als", 7/10), ("content", 2/10), ("pop", 1/10)] else w
  normalizeWeights dw

/-- The treatment weights of the built-in experiment
`new_algorithm_v1`. -/
def treatmentWeights : List (String × Rat) :=
  [("als", 6/10), ("content", 3/10), ("pop", 1/10)]

/-- Lines 209–213 of `hybrid_recommend`: when no approach produced a
non-empty list (`not any(recommendations.values())`), add the fallback
recommendations under the key "fallback". -/
def withFallback (user_id : String) (N : Nat)
    (recommendations : List (String × List AdapterRec)) :
    List (String × List AdapterRec) :=
  if recommendations.all (fun ar => ar.2 = []) then
    dictInsert recommendations "fallback" (create_fallback_recommendations user_id N)
  else recommendations

/-- `HybridRecommender.hybrid_recommend`, shallowly embedded.
`m` is the A/B manager state (`enable_ab` false means
`self.ab_test_manager is None`); `gathered` abstracts the
strategy-querying block (lines 162–207): it is the per-approach dict of
adapter outputs that block produced (empty when no model is available,
as in the standalone no-model configuration).  The A/B variant override
uses `treatmentWeights` since `"new_algorithm_v1"` is always a key of
`self.experiments`.  Returns the final recommendation list and the
updated A/B manager state; metrics recording is a side channel and not
modelled. -/
def hybrid_recommend (m : ABTestManager) (enable_ab : Bool)
    (default_weights : List (String × Rat)) (ctx : ExplanationCtx)
    (gathered : List (String × List AdapterRec)) (user_id : String) (N : Nat)
    (weights0 : Option (List (String × Rat))) :
    List Recommendation × ABTestManager :=
  let vm := if enable_ab then get_user_variant m user_id "new_algorithm_v1"
            else ("control", m)
  let weights1 := if enable_ab && (vm.1 == "treatment") then some treatmentWeights
                  else weights0
  let weights2 := weights1.getD default_weights
  let weights := normalizeWeights weights2
  let recsAll := withFallback user_id N gathered
  (fuseGathered ctx recsAll weights N, vm.2)

/-! ## `api/main.py`: the generic fallback tier of
`get_interest_based_recommendations` -/

/-- One entry of `all_recommendations` in
`get_interest_based_recommendations`. -/
structure ApiRec where
  item_id : String
  score : Rat
  explanations : List String
deriving DecidableEq, Repr

/-- The fixed `generic_courses` list of Strategy 4 (lines 532–553). -/
def generic_courses : List ApiRec :=
  [{ item_id := "generic_1", score := 7/10,
     explanations := ["Foundation course for beginners", "Essential skills development"] },
   { item_id := "generic_2", score := 6/10,
     explanations := ["Popular starting point", "Industry standard course"] },
   { item_id := "generic_3", score := 5/10,
     explanations := ["Recommended for your level", "Good introduction to the field"] },
   { item_id := "generic_4", score := 4/10,
     explanations := ["Widely taken course", "Builds fundamental knowledge"] }]

/-- Strategy 4 of `get_interest_based_recommendations` (lines 529–557):
when fewer than 6 recommendations were gathered by the prior tiers,
walk `generic_courses`, appending each while the running total is still
below 4. -/
def genericFallbackTier (all_recommendations : List ApiRec) : List ApiRec :=
  if all_recommendations.length < 6 then
    generic_courses.foldl
      (fun acc rec => if acc.length < 4 then acc ++ [rec] else acc)
      all_recommendations
  else all_recommendations

/-- Lines 558–560: truncate to the requested count.  `n_recs` is
`max(4, request.n_recommendations)` (line 329). -/
def finalRecommendations (all_recommendations : List ApiRec)
    (n_recommendations : Nat) : List ApiRec :=
  (genericFallbackTier all_recommendations).take (max 4 n_recommendations)

/-! ## Specification-side definitions

These re-state parts of the spec in its own words, to be compared with
the definitions translated from the source. -/

/-- The cumulative boundaries of spec §4.6 step 3: each variant of the
declared order paired with the accumulated traffic-split probability up
to and including it, starting from accumulator `cum`. -/
def specBoundaries (cum : Rat) : List (String × Rat) → List (String × Rat)
  | [] => []
  | (v, p) :: rest => (v, cum + p) :: specBoundaries (cum + p) rest

/-- Claim C1 exactly as stated: `ratio = md5(user_id + ":" + name) mod
10000 / 10000.0`; the first variant of the declared order whose
cumulative boundary is `≥ ratio`, and if none reaches `ratio`, the LAST
variant of the declared order (`""` on an empty split). -/
def claimAssignVariantLast (user_id : String) (e : ExperimentConfig) : String :=
  let ratio := hashFrac user_id e.name
  match (specBoundaries 0 e.traffic_split).find? (fun vb => decide (ratio ≤ vb.2)) with
  | some vb => vb.1
  | none => (e.traffic_split.map Prod.fst).getLastD ""

/-- The amended assignment rule: as claim C1 but falling back to the
FIRST variant of the declared order, as the code does. -/
def specAssignVariantFirst (user_id : String) (e : ExperimentConfig) : String :=
  let ratio := hashFrac user_id e.name
  match (specBoundaries 0 e.traffic_split).find? (fun vb => decide (ratio ≤ vb.2)) with
  | some vb => vb.1
  | none => (e.traffic_split.map Prod.fst).headD ""

/-- The truthy item id of an adapter entry (the `item_id =
rec.get('item_id'); if not item_id: continue` filter). -/
def itemKey (rec : AdapterRec) : Option String :=
  match rec.item_id with
  | none => none
  | some s => if s = "" then none else some s

/-- The contribution of one gathered approach to one item, as the spec
words it: weight times the sum of the normalized scores of that item in
the approach list, 0 when the approach is skipped. -/
def approachContribution (weights : List (String × Rat))
    (entry : String × List AdapterRec) (item : String) : Rat :=
  if entry.2 = [] then 0
  else
    match approachWeight weights entry.1 with
    | none => 0
    | some w =>
      ((entry.2.filter (fun r => itemKey r == some item)).map
        (fun r => normalize_score (recRawScore entry.1 r) entry.1)).sum * w

/-- The variant `get_user_variant` resolves to, as a pure function of
the registry, user and experiment name alone (no cache state). -/
def variantOf (R : List (String × ExperimentConfig)) (u e : String) : String :=
  match List.lookup e R with
  | none => "control"
  | some cfg =>
    if cfg.is_active = false then "control" else assign_user_to_variant u cfg

/-- Cache consistency invariant: the registry is `R` and every cached
assignment was derived by the deterministic hash from an active
registered experiment. -/
def CacheOk (R : List (String × ExperimentConfig)) (m : ABTestManager) : Prop :=
  m.experiments = R ∧
  ∀ u e v, cachedVariant m u e = some v →
    ∃ cfg, List.lookup e R = some cfg ∧ cfg.is_active = true ∧
      v = assign_user_to_variant u cfg

/-- Manager states reachable from a fresh manager with registry `R`
(process start) by any sequence of `get_user_variant` /
`record_conversion` calls, the registry held fixed. -/
inductive ABReachable (R : List (String × ExperimentConfig)) : ABTestManager → Prop where
  | init : ABReachable R ⟨R, [], []⟩
  | assign (u e : String) {m : ABTestManager} :
      ABReachable R m → ABReachable R (get_user_variant m u e).2
  | convert (u e t : String) {m : ABTestManager} :
      ABReachable R m → ABReachable R (record_conversion m u e t)

/-! ## Association-list lemmas -/

theorem lookup_dictInsert_self {α : Type} (d : List (String × α)) (k : String) (v : α) :
    List.lookup k (dictInsert d k v) = some v := by
  induction d with
  | nil => simp [dictInsert, List.lookup]
  | cons kv rest ih =>
    obtain ⟨a, b⟩ := kv
    by_cases h : a = k
    · simp [dictInsert, h, List.lookup]
    · have hb : (k == a) = false := beq_eq_false_iff_ne.mpr (Ne.symm h)
      simp [dictInsert, h, List.lookup, hb, ih]

theorem lookup_dictInsert_ne {α : Type} (d : List (String × α)) (k a : String)
    (v : α) (h : a ≠ k) :
    List.lookup a (dictInsert d k v) = List.lookup a d := by
  induction d with
  | nil => simp [dictInsert, List.lookup, beq_eq_false_iff_ne.mpr h]
  | cons kv rest ih =>
    obtain ⟨a', b'⟩ := kv
    by_cases hk : a' = k
    · subst hk
      simp [dictInsert, List.lookup, beq_eq_false_iff_ne.mpr h]
    · by_cases ha : a = a'
      · subst ha
        simp [dictInsert, hk, List.lookup]
      · have hb : (a == a') = false := beq_eq_false_iff_ne.mpr ha
        simp [dictInsert, hk, List.lookup, hb, ih]

/-! ## Claim C6: experiment registration failures -/

/-- C6: `RegisterExperiment` fails without touching the registry when
the traffic split does not sum to 1.0 within 0.01 (the config
constructor raises, so no experiment is created), or when the name is
already registered (`create_experiment` returns `False` with the
manager unchanged); in particular `{"a": 0.5, "b": 0.4}` (sum 0.9) is
rejected by the config validation. -/
theorem register_experiment_failures :
    (∀ (name descr : String) (variants : List String)
        (split : List (String × Rat)) (sd : String) (ed : Option String)
        (act : Bool) (ce : Option (List String)),
        |splitTotal split - 1| > 1/100 →
        mkExperimentConfig name descr variants split sd ed act ce =
          Except.error "Traffic split must sum to 1.0") ∧
    (∀ (m : ABTestManager) (config : ExperimentConfig),
        (List.lookup config.name m.experiments).isSome = true →
        create_experiment m config = (false, m)) ∧
    mkExperimentConfig "exp_d" "d" ["a", "b"] [("a", 1/2), ("b", 2/5)]
        "2024-01-01" none true none =
      Except.error "Traffic split must sum to 1.0" := by
  refine ⟨?_, ?_, ?_⟩
  · intro name descr variants split sd ed act ce h
    unfold mkExperimentConfig
    rw [if_pos h]
  · intro m config h
    simp [create_experiment, h]
  · have h : |splitTotal [("a", (1:Rat)/2), ("b", 2/5)] - 1| > 1/100 := by
      decide
    unfold mkExperimentConfig
    rw [if_pos h]

/-- Witness for C6 at concrete inputs. -/
theorem register_experiment_failures_witness :
    mkExperimentConfig "x" "" [] [("a", 1/2)] "" none true none =
      Except.error "Traffic split must sum to 1.0" ∧
    create_experiment
        ⟨[("e", ⟨"e", "", [], [("c", 1)], "", none, true, []⟩)], [], []⟩
        ⟨"e", "", [], [("c", 1)], "", none, true, []⟩ =
      (false, ⟨[("e", ⟨"e", "", [], [("c", 1)], "", none, true, []⟩)], [], []⟩) :=
  ⟨register_experiment_failures.1 "x" "" [] [("a", 1/2)] "" none true none
      (by decide),
   register_experiment_failures.2.1
      ⟨[("e", ⟨"e", "", [], [("c", 1)], "", none, true, []⟩)], [], []⟩
      ⟨"e", "", [], [("c", 1)], "", none, true, []⟩ rfl⟩

/-! ## Claim C7: unknown or inactive experiment -/

/-- C7: for an unknown experiment, or a registered but inactive one,
`get_user_variant` returns "control" and leaves the manager state (in
particular the assignment cache) unchanged. -/
theorem get_user_variant_unknown_or_inactive (m : ABTestManager) (u e : String)
    (h : List.lookup e m.experiments = none ∨
         ∃ cfg, List.lookup e m.experiments = some cfg ∧ cfg.is_active = false) :
    get_user_variant m u e = ("control", m) := by
  rcases h with h | ⟨cfg, hl, ha⟩
  · simp [get_user_variant, h]
  · simp [get_user_variant, hl, ha]

/-- Witness for C7: an unknown experiment on a fresh manager and an
inactive registered experiment. -/
theorem get_user_variant_unknown_or_inactive_witness :
    get_user_variant ⟨[], [], []⟩ "u" "nope" = ("control", ⟨[], [], []⟩) ∧
    get_user_variant ⟨[("e", ⟨"e", "", [], [("c", 1)], "", none, false, []⟩)], [], []⟩
        "u" "e" =
      ("control", ⟨[("e", ⟨"e", "", [], [("c", 1)], "", none, false, []⟩)], [], []⟩) :=
  ⟨get_user_variant_unknown_or_inactive ⟨[], [], []⟩ "u" "nope" (Or.inl rfl),
   get_user_variant_unknown_or_inactive
     ⟨[("e", ⟨"e", "", [], [("c", 1)], "", none, false, []⟩)], [], []⟩ "u" "e"
     (Or.inr ⟨⟨"e", "", [], [("c", 1)], "", none, false, []⟩, rfl, rfl⟩)⟩

/-! ## Claim C10: deactivation does not evict the cached assignment -/

/-- C10: when a user already has a cached variant for an experiment that
is currently inactive, `get_user_variant` returns "control" while
leaving the whole manager state (cache and registry) unchanged, and any
reactivated manager with the same cache returns the originally cached
variant again. -/
theorem inactive_preserves_cached_assignment (m : ABTestManager)
    (u e : String) (cfg : ExperimentConfig) (v : String)
    (hl : List.lookup e m.experiments = some cfg)
    (ha : cfg.is_active = false)
    (hc : cachedVariant m u e = some v) :
    get_user_variant m u e = ("control", m) ∧
    ∀ (m' : ABTestManager) (cfg' : ExperimentConfig),
      m'.user_assignments = m.user_assignments →
      List.lookup e m'.experiments = some cfg' →
      cfg'.is_active = true →
      (get_user_variant m' u e).1 = v := by
  constructor
  · simp [get_user_variant, hl, ha]
  · intro m' cfg' hua hl' ha'
    have hc' : cachedVariant m' u e = some v := by
      unfold cachedVariant at hc ⊢
      rw [hua]
      exact hc
    simp [get_user_variant, hl', ha', hc']

/-- Witness for C10: a cached "treatment" assignment survives a
deactivate / reactivate round trip. -/
theorem inactive_preserves_cached_assignment_witness :
    get_user_variant
        ⟨[("e", ⟨"e", "", [], [("c", 1)], "", none, false, []⟩)],
         [("u", [("e", "treatment")])], []⟩ "u" "e" =
      ("control",
        ⟨[("e", ⟨"e", "", [], [("c", 1)], "", none, false, []⟩)],
         [("u", [("e", "treatment")])], []⟩) ∧
    (get_user_variant
        ⟨[("e", ⟨"e", "", [], [("c", 1)], "", none, true, []⟩)],
         [("u", [("e", "treatment")])], []⟩ "u" "e").1 = "treatment" := by
  refine ⟨?_, ?_⟩
  · exact (inactive_preserves_cached_assignment
      ⟨[("e", ⟨"e", "", [], [("c", 1)], "", none, false, []⟩)],
       [("u", [("e", "treatment")])], []⟩ "u" "e"
      ⟨"e", "", [], [("c", 1)], "", none, false, []⟩ "treatment"
      rfl rfl rfl).1
  · exact (inactive_preserves_cached_assignment
        ⟨[("e", ⟨"e", "", [], [("c", 1)], "", none, false, []⟩)],
         [("u", [("e", "treatment")])], []⟩ "u" "e"
        ⟨"e", "", [], [("c", 1)], "", none, false, []⟩ "treatment"
        rfl rfl rfl).2
      ⟨[("e", ⟨"e", "", [], [("c", 1)], "", none, true, []⟩)],
       [("u", [("e", "treatment")])], []⟩
      ⟨"e", "", [], [("c", 1)], "", none, true, []⟩ rfl rfl rfl

/-! ## Claim C1: deterministic hash bucketing -/

/-- The cumulative walk of `_assign_user_to_variant` returns the first
variant whose cumulative boundary is `≥ ratio` (spec §4.6 step 3). -/
theorem pickVariant_eq_findBoundary (ratio : Rat) :
    ∀ (splits : List (String × Rat)) (cum : Rat),
      pickVariant cum splits ratio =
        ((specBoundaries cum splits).find?
          (fun vb => decide (ratio ≤ vb.2))).map Prod.fst := by
  intro splits
  induction splits with
  | nil => intro cum; rfl
  | cons hd tl ih =>
    intro cum
    obtain ⟨v, p⟩ := hd
    by_cases h : ratio ≤ cum + p
    · simp [pickVariant, specBoundaries, List.find?, h]
    · simp [pickVariant, specBoundaries, List.find?, h, ih]

/-- C1 (amended): the assigned variant is computed from `ratio =
md5(user_id + ":" + experiment_name) mod 10000 / 10000.0` by walking
the declared variant order and returning the first variant whose
cumulative boundary is `≥ ratio` — but when no boundary reaches
`ratio`, the code falls back to the FIRST variant in the declared
order, not the last. -/
theorem assign_variant_refines_spec (user_id : String) (e : ExperimentConfig) :
    assign_user_to_variant user_id e = specAssignVariantFirst user_id e := by
  unfold assign_user_to_variant specAssignVariantFirst
  rw [pickVariant_eq_findBoundary]
  cases hf : (specBoundaries 0 e.traffic_split).find?
      (fun vb => decide (hashFrac user_id e.name ≤ vb.2)) with
  | none =>
    simp only [hf, Option.map_none]
    cases e.traffic_split with
    | nil => rfl
    | cons hd tl =>
      obtain ⟨v, p⟩ := hd
      simp
  | some vb => simp [hf]

/-- Counterexample to C1 as stated: `user62` hashes to ratio 0.9956 for
experiment `exp`; with the validated traffic split `{"a": 0.5, "b":
0.495}` (sum 0.995, within the 0.01 tolerance) no cumulative boundary
reaches the ratio, and the registered active experiment assigns "a"
(the first declared variant) where the claimed rule yields "b" (the
last). -/
theorem assign_variant_last_fallback_cex :
    mkExperimentConfig "exp" "d" ["a", "b"] [("a", 1/2), ("b", 99/200)]
        "2024-01-01" none true none =
      Except.ok ⟨"exp", "d", ["a", "b"], [("a", 1/2), ("b", 99/200)],
        "2024-01-01", none, true, ["enroll", "complete"]⟩ ∧
    hashFrac "user62" "exp" = 2489/2500 ∧
    (get_user_variant
        ⟨[("exp", ⟨"exp", "d", ["a", "b"], [("a", 1/2), ("b", 99/200)],
           "2024-01-01", none, true, ["enroll", "complete"]⟩)], [], []⟩
        "user62" "exp").1 = "a" ∧
    claimAssignVariantLast "user62"
        ⟨"exp", "d", ["a", "b"], [("a", 1/2), ("b", 99/200)],
         "2024-01-01", none, true, ["enroll", "complete"]⟩ = "b" := by
  refine ⟨?_, ?_, ?_, ?_⟩
  · have h : ¬ (|splitTotal [("a", (1:Rat)/2), ("b", 99/200)] - 1| > 1/100) := by
      decide
    unfold mkExperimentConfig
    rw [if_neg h]
    rfl
  · decide
  · decide
  · decide

/-! ## Claim C9: experiment statistics -/

/-- C9 failing scenario: register experiment `e` (90/10 split), let user
`u1` be assigned (hash ratio 0.3678 → "control"), and record one
genuine "enroll" conversion.  The recorded conversion stream then holds
exactly one "control" enroll event, but `get_experiment_stats` reports
0.3 enroll / 0.1 complete conversions for "control" — numbers
fabricated as `assignment_count * 0.3` and `* 0.1` rather than
aggregated from the recorded events.  (Assignment counts, by contrast,
are genuinely aggregated from the stored assignments.) -/
theorem experiment_stats_conversions_fabricated :
    (record_conversion
        (create_experiment ⟨[], [], []⟩
          ⟨"e", "d", ["control", "treatment"],
           [("control", 9/10), ("treatment", 1/10)],
           "2024-01-01", none, true, ["enroll", "complete"]⟩).2
        "u1" "e" "enroll").conversion_log = [("e", "control", "enroll")] ∧
    get_experiment_stats
        (record_conversion
          (create_experiment ⟨[], [], []⟩
            ⟨"e", "d", ["control", "treatment"],
             [("control", 9/10), ("treatment", 1/10)],
             "2024-01-01", none, true, ["enroll", "complete"]⟩).2
          "u1" "e" "enroll") "e" =
      some { assignments := [("control", 1)],
             conversions := [("control", 3/10, 1/10), ("treatment", 0, 0)] } := by
  refine ⟨?_, ?_⟩
  · decide
  · decide

/-! ## Claim C2: determinism of variant assignment -/

/-- Effect of the cache write in `get_user_variant` on later cache
lookups. -/
theorem cachedVariant_update (m : ABTestManager) (u e variant u' e' : String) :
    cachedVariant
      { m with user_assignments := (dictInsert m.user_assignments u
          (dictInsert ((List.lookup u m.user_assignments).getD []) e variant)) }
      u' e' =
    (if u' = u ∧ e' = e then some variant else cachedVariant m u' e') := by
  unfold cachedVariant
  by_cases hu : u' = u
  · subst hu
    rw [lookup_dictInsert_self]
    by_cases he : e' = e
    · subst he
      simp [lookup_dictInsert_self]
    · simp only [he, and_false, if_false, Option.some_bind]
      rw [lookup_dictInsert_ne _ _ _ _ he]
      cases hA : List.lookup u' m.user_assignments with
      | none => simp
      | some D => simp
  · rw [lookup_dictInsert_ne _ _ _ _ hu]
    simp [hu]

/-- Step equation: unknown experiment. -/
theorem get_user_variant_miss (m : ABTestManager) (u e : String)
    (h : List.lookup e m.experiments = none) :
    get_user_variant m u e = ("control", m) := by
  simp [get_user_variant, h]

/-- Step equation: inactive experiment. -/
theorem get_user_variant_inactive (m : ABTestManager) (u e : String)
    (cfg : ExperimentConfig) (hl : List.lookup e m.experiments = some cfg)
    (ha : cfg.is_active = false) :
    get_user_variant m u e = ("control", m) := by
  simp [get_user_variant, hl, ha]

/-- Step equation: cache hit. -/
theorem get_user_variant_cached (m : ABTestManager) (u e : String)
    (cfg : ExperimentConfig) (v : String)
    (hl : List.lookup e m.experiments = some cfg) (ha : cfg.is_active = true)
    (hc : cachedVariant m u e = some v) :
    get_user_variant m u e = (v, m) := by
  simp [get_user_variant, hl, ha, hc]

/-- Step equation: cache miss on an active experiment — assign by hash
and store. -/
theorem get_user_variant_uncached (m : ABTestManager) (u e : String)
    (cfg : ExperimentConfig)
    (hl : List.lookup e m.experiments = some cfg) (ha : cfg.is_active = true)
    (hc : cachedVariant m u e = none) :
    get_user_variant m u e =
      (assign_user_to_variant u cfg,
        { m with user_assignments := (dictInsert m.user_assignments u
            (dictInsert ((List.lookup u m.user_assignments).getD []) e
              (assign_user_to_variant u cfg))) }) := by
  simp [get_user_variant, hl, ha, hc]

/-- `get_user_variant` resolves through the pure `variantOf` function on
any cache-consistent state. -/
theorem getUserVariant_fst_of_cacheOk {R : List (String × ExperimentConfig)}
    {m : ABTestManager} (h : CacheOk R m) (u e : String) :
    (get_user_variant m u e).1 = variantOf R u e := by
  obtain ⟨hexp, hcache⟩ := h
  subst hexp
  unfold variantOf
  cases hl : List.lookup e m.experiments with
  | none => rw [get_user_variant_miss m u e hl]
  | some cfg =>
    cases ha : cfg.is_active with
    | false =>
      rw [get_user_variant_inactive m u e cfg hl ha]
      simp [ha]
    | true =>
      cases hc : cachedVariant m u e with
      | none =>
        rw [get_user_variant_uncached m u e cfg hl ha hc]
        simp [ha]
      | some v =>
        rw [get_user_variant_cached m u e cfg v hl ha hc]
        obtain ⟨cfg', hl', ha', hv⟩ := hcache u e v hc
        rw [hl] at hl'
        injection hl' with hcfg
        simp [hv, hcfg, ha']

/-- A `get_user_variant` call preserves cache consistency. -/
theorem cacheOk_get_user_variant {R : List (String × ExperimentConfig)}
    {m : ABTestManager} (h : CacheOk R m) (u e : String) :
    CacheOk R (get_user_variant m u e).2 := by
  obtain ⟨hexp, hcache⟩ := h
  subst hexp
  cases hl : List.lookup e m.experiments with
  | none =>
    rw [get_user_variant_miss m u e hl]
    exact ⟨rfl, hcache⟩
  | some cfg =>
    cases ha : cfg.is_active with
    | false =>
      rw [get_user_variant_inactive m u e cfg hl ha]
      exact ⟨rfl, hcache⟩
    | true =>
      cases hc : cachedVariant m u e with
      | some v =>
        rw [get_user_variant_cached m u e cfg v hl ha hc]
        exact ⟨rfl, hcache⟩
      | none =>
        rw [get_user_variant_uncached m u e cfg hl ha hc]
        refine ⟨rfl, ?_⟩
        intro u' e' v' hc'
        rw [cachedVariant_update] at hc'
        by_cases hue : u' = u ∧ e' = e
        · rw [if_pos hue] at hc'
          injection hc' with hv'
          obtain ⟨hu, he⟩ := hue
          subst hu
          subst he
          exact ⟨cfg, hl, ha, hv'.symm⟩
        · rw [if_neg hue] at hc'
          exact hcache u' e' v' hc'

/-- A `record_conversion` call preserves cache consistency (it only
appends to the conversion log beyond the embedded `get_user_variant`
call). -/
theorem cacheOk_record_conversion {R : List (String × ExperimentConfig)}
    {m : ABTestManager} (h : CacheOk R m) (u e t : String) :
    CacheOk R (record_conversion m u e t) := by
  obtain ⟨hexp, hcache⟩ := cacheOk_get_user_variant h u e
  exact ⟨hexp, hcache⟩

/-- Every reachable manager state is cache-consistent. -/
theorem cacheOk_of_reachable {R : List (String × ExperimentConfig)}
    {m : ABTestManager} (h : ABReachable R m) : CacheOk R m := by
  induction h with
  | init =>
    refine ⟨rfl, ?_⟩
    intro u e v hc
    simp [cachedVariant, List.lookup] at hc
  | assign u e hm ih => exact cacheOk_get_user_variant ih u e
  | convert u e t hm ih => exact cacheOk_record_conversion ih u e t

/-- C2: on any state reachable from a fresh manager with registry `R`
(in particular after a process restart, or after any interleaving of
calls for other users), `get_user_variant` returns the pure function
`variantOf R u e` of the registry and inputs alone, and an immediately
repeated call returns the identical variant. -/
theorem get_user_variant_deterministic (R : List (String × ExperimentConfig))
    (m : ABTestManager) (u e : String) (h : ABReachable R m) :
    (get_user_variant m u e).1 = variantOf R u e ∧
    (get_user_variant (get_user_variant m u e).2 u e).1 =
      (get_user_variant m u e).1 := by
  have h1 := getUserVariant_fst_of_cacheOk (cacheOk_of_reachable h) u e
  have h2 := getUserVariant_fst_of_cacheOk
    (cacheOk_of_reachable (ABReachable.assign u e h)) u e
  exact ⟨h1, h2.trans h1.symm⟩

/-- Witness for C2 on the fresh empty-registry manager. -/
theorem get_user_variant_deterministic_witness :
    (get_user_variant ⟨[], [], []⟩ "u" "e").1 = variantOf [] "u" "e" ∧
    (get_user_variant (get_user_variant ⟨[], [], []⟩ "u" "e").2 "u" "e").1 =
      (get_user_variant ⟨[], [], []⟩ "u" "e").1 :=
  get_user_variant_deterministic [] ⟨[], [], []⟩ "u" "e" ABReachable.init

/-! ## Claim C4: weighted combination of normalized scores -/

/-- Effect of one `combined_scores[item_id] += v` on a later lookup. -/
theorem addScore_lookup (d : List (String × Rat)) (k : String) (v : Rat)
    (item : String) :
    (List.lookup item (addScore d k v)).getD 0 =
      (List.lookup item d).getD 0 + (if item = k then v else 0) := by
  unfold addScore
  by_cases h : item = k
  · subst h
    rw [lookup_dictInsert_self]
    simp
  · rw [lookup_dictInsert_ne _ _ _ _ h]
    simp [h]

/-- The inner loop of `_combine_recommendations` adds, per item, the
weighted sum of the normalized scores of that item's entries. -/
theorem foldl_scoreStep_lookup (approach : String) (w : Rat)
    (l : List AdapterRec) :
    ∀ (d : List (String × Rat)) (item : String),
      (List.lookup item (l.foldl (scoreStep approach w) d)).getD 0 =
        (List.lookup item d).getD 0 +
          ((l.filter (fun r => itemKey r == some item)).map
            (fun r => normalize_score (recRawScore approach r) approach)).sum * w := by
  induction l with
  | nil => intro d item; simp
  | cons hd tl ih =>
    intro d item
    rw [List.foldl_cons, ih]
    cases hid : hd.item_id with
    | none =>
      simp [scoreStep, hid, itemKey, List.filter]
    | some s =>
      by_cases hs : s = ""
      · subst hs
        simp [scoreStep, hid, itemKey, List.filter]
      · by_cases hsi : s = item
        · subst hsi
          simp only [scoreStep, hid, if_neg hs]
          rw [addScore_lookup]
          simp [itemKey, hid, hs, List.filter]
          ring
        · have hne : ¬ item = s := fun hcon => hsi hcon.symm
          have hbeq : (s == item) = false := beq_eq_false_iff_ne.mpr hsi
          simp only [scoreStep, hid, if_neg hs]
          rw [addScore_lookup, if_neg hne]
          simp [itemKey, hid, hs, List.filter, hbeq]

/-- One approach of `_combine_recommendations` contributes exactly
`approachContribution`. -/
theorem combineApproach_lookup (weights : List (String × Rat))
    (entry : String × List AdapterRec) (acc : List (String × Rat))
    (item : String) :
    (List.lookup item (combineApproach weights acc entry)).getD 0 =
      (List.lookup item acc).getD 0 + approachContribution weights entry item := by
  unfold combineApproach approachContribution
  by_cases hE : entry.2 = []
  · simp [hE]
  · rw [if_neg hE, if_neg hE]
    cases hw : approachWeight weights entry.1 with
    | none => simp
    | some w => simp [foldl_scoreStep_lookup]

/-- The combined score of every item is the sum over the gathered
approaches of (weight × sum of normalized scores of that item). -/
theorem combine_lookup (recs : List (String × List AdapterRec))
    (weights : List (String × Rat)) (item : String) :
    (List.lookup item (combine_recommendations recs weights)).getD 0 =
      (recs.map (fun entry => approachContribution weights entry item)).sum := by
  unfold combine_recommendations
  suffices h : ∀ d, (List.lookup item (recs.foldl (combineApproach weights) d)).getD 0 =
      (List.lookup item d).getD 0 +
        (recs.map (fun entry => approachContribution weights entry item)).sum by
    simpa using h []
  induction recs with
  | nil => intro d; simp
  | cons hd tl ih =>
    intro d
    rw [List.foldl_cons, ih, combineApproach_lookup]
    simp
    ring

/-- C4: each item's combined score is the sum over contributing
strategies of `normalized_score * weight`, with ALS (collaborative
filtering) normalized as `clamp((raw + 1) / 2, 0, 1)` and content /
popularity as `clamp(raw, 0, 1)`; on the spec's Example B the combined
score of `y` is `0.55 * 0.5 + 0.8 * 0.3 = 0.515`. -/
theorem combined_score_weighted_sum :
    (∀ (recs : List (String × List AdapterRec)) (weights : List (String × Rat))
        (item : String),
      (List.lookup item (combine_recommendations recs weights)).getD 0 =
        (recs.map (fun entry => approachContribution weights entry item)).sum) ∧
    normalize_score (1/10) "als" = 11/20 ∧
    normalize_score (8/10) "content" = 8/10 ∧
    List.lookup "y" (combine_recommendations
        [("als", [⟨some "x", some (9/10), none⟩, ⟨some "y", some (1/10), none⟩]),
         ("content", [⟨some "y", none, some (8/10)⟩]),
         ("pop", [⟨some "z", some (1/2), none⟩])]
        [("als", 1/2), ("content", 3/10), ("pop", 1/5)]) = some (103/200) := by
  refine ⟨combine_lookup, by decide, by decide, by decide⟩

/-! ## Claim C3: shape of the fused output -/

/-- Membership in the keys of a `dictInsert` result. -/
theorem mem_keys_dictInsert {α : Type} (d : List (String × α)) (k a : String)
    (v : α) :
    a ∈ (dictInsert d k v).map Prod.fst → a ∈ d.map Prod.fst ∨ a = k := by
  induction d with
  | nil =>
    intro h
    right
    simpa [dictInsert] using h
  | cons kv rest ih =>
    obtain ⟨k', v'⟩ := kv
    intro h
    by_cases hk : k' = k
    · subst hk
      rw [show dictInsert ((k', v') :: rest) k' v = (k', v) :: rest from by
        simp [dictInsert]] at h
      rw [List.map_cons] at h
      left
      rw [List.map_cons]
      simpa using h
    · rw [show dictInsert ((k', v') :: rest) k v = (k', v') :: dictInsert rest k v from by
        simp [dictInsert, hk]] at h
      rw [List.map_cons] at h
      rcases List.mem_cons.mp h with h | h
      · left
        rw [List.map_cons]
        exact List.mem_cons.mpr (Or.inl h)
      · rcases ih h with h2 | h2
        · left
          rw [List.map_cons]
          exact List.mem_cons.mpr (Or.inr h2)
        · right
          exact h2

/-- `dictInsert` preserves key uniqueness. -/
theorem nodup_keys_dictInsert {α : Type} (d : List (String × α)) (k : String)
    (v : α) (h : (d.map Prod.fst).Nodup) :
    ((dictInsert d k v).map Prod.fst).Nodup := by
  induction d with
  | nil => simp [dictInsert]
  | cons kv rest ih =>
    obtain ⟨k', v'⟩ := kv
    rw [List.map_cons, List.nodup_cons] at h
    obtain ⟨h1, h2⟩ := h
    by_cases hk : k' = k
    · subst hk
      rw [show dictInsert ((k', v') :: rest) k' v = (k', v) :: rest from by
        simp [dictInsert]]
      rw [List.map_cons, List.nodup_cons]
      exact ⟨h1, h2⟩
    · rw [show dictInsert ((k', v') :: rest) k v = (k', v') :: dictInsert rest k v from by
        simp [dictInsert, hk]]
      rw [List.map_cons, List.nodup_cons]
      refine ⟨?_, ih h2⟩
      intro hmem
      rcases mem_keys_dictInsert rest k k' v hmem with h3 | h3
      · exact h1 h3
      · exact hk h3

/-- `scoreStep` preserves key uniqueness of the accumulator. -/
theorem nodup_keys_scoreStep (approach : String) (w : Rat)
    (d : List (String × Rat)) (rec : AdapterRec)
    (h : (d.map Prod.fst).Nodup) :
    ((scoreStep approach w d rec).map Prod.fst).Nodup := by
  unfold scoreStep
  cases rec.item_id with
  | none => exact h
  | some item =>
    by_cases hs : item = ""
    · simpa [hs] using h
    · simpa [hs] using nodup_keys_dictInsert d item _ h

/-- The inner fold preserves key uniqueness. -/
theorem nodup_keys_foldl_scoreStep (approach : String) (w : Rat)
    (l : List AdapterRec) :
    ∀ d, (d.map Prod.fst).Nodup →
      ((l.foldl (scoreStep approach w) d).map Prod.fst).Nodup := by
  induction l with
  | nil => intro d h; exact h
  | cons hd tl ih =>
    intro d h
    rw [List.foldl_cons]
    exact ih _ (nodup_keys_scoreStep approach w d hd h)

/-- `combineApproach` preserves key uniqueness. -/
theorem nodup_keys_combineApproach (weights : List (String × Rat))
    (entry : String × List AdapterRec) (acc : List (String × Rat))
    (h : (acc.map Prod.fst).Nodup) :
    ((combineApproach weights acc entry).map Prod.fst).Nodup := by
  unfold combineApproach
  by_cases hE : entry.2 = []
  · simpa [hE] using h
  · rw [if_neg hE]
    cases approachWeight weights entry.1 with
    | none => exact h
    | some w => exact nodup_keys_foldl_scoreStep entry.1 w entry.2 acc h

/-- The combined score dict has mutually distinct item keys. -/
theorem nodup_keys_combine (recs : List (String × List AdapterRec))
    (weights : List (String × Rat)) :
    ((combine_recommendations recs weights).map Prod.fst).Nodup := by
  unfold combine_recommendations
  suffices h : ∀ d, (d.map Prod.fst).Nodup →
      ((recs.foldl (combineApproach weights) d).map Prod.fst).Nodup by
    exact h [] (by simp)
  induction recs with
  | nil => intro d h; exact h
  | cons hd tl ih =>
    intro d h
    rw [List.foldl_cons]
    exact ih _ (nodup_keys_combineApproach weights hd d h)

/-- `insertDesc` produces a permutation of consing the element. -/
theorem insertDesc_perm (x : String × Rat) :
    ∀ l : List (String × Rat), (insertDesc x l).Perm (x :: l) := by
  intro l
  induction l with
  | nil => exact List.Perm.refl _
  | cons y ys ih =>
    unfold insertDesc
    by_cases h : y.2 ≤ x.2
    · rw [if_pos h]
    · rw [if_neg h]
      exact (ih.cons y).trans (List.Perm.swap x y ys)

/-- `insertDesc` preserves descending sortedness. -/
theorem insertDesc_pairwise (x : String × Rat) :
    ∀ l : List (String × Rat),
      List.Pairwise (fun a b : String × Rat => b.2 ≤ a.2) l →
      List.Pairwise (fun a b : String × Rat => b.2 ≤ a.2) (insertDesc x l) := by
  intro l
  induction l with
  | nil => intro _; simp [insertDesc]
  | cons y ys ih =>
    intro h
    rw [List.pairwise_cons] at h
    obtain ⟨hy, hys⟩ := h
    unfold insertDesc
    by_cases hc : y.2 ≤ x.2
    · rw [if_pos hc]
      refine List.pairwise_cons.mpr ⟨?_, List.pairwise_cons.mpr ⟨hy, hys⟩⟩
      intro b hb
      rcases List.mem_cons.mp hb with hb | hb
      · exact hb ▸ hc
      · exact le_trans (hy b hb) hc
    · rw [if_neg hc]
      refine List.pairwise_cons.mpr ⟨?_, ih hys⟩
      intro b hb
      have hb2 := (insertDesc_perm x ys).mem_iff.mp hb
      rcases List.mem_cons.mp hb2 with hb2 | hb2
      · exact hb2 ▸ le_of_not_le hc
      · exact hy b hb2

/-- `sortDesc` permutes its input. -/
theorem sortDesc_perm (l : List (String × Rat)) : (sortDesc l).Perm l := by
  induction l with
  | nil => exact List.Perm.refl _
  | cons hd tl ih =>
    unfold sortDesc at ih ⊢
    rw [List.foldr_cons]
    exact (insertDesc_perm hd _).trans (ih.cons hd)

/-- `sortDesc` sorts by non-increasing score. -/
theorem sortDesc_pairwise (l : List (String × Rat)) :
    List.Pairwise (fun a b : String × Rat => b.2 ≤ a.2) (sortDesc l) := by
  induction l with
  | nil => simp [sortDesc]
  | cons hd tl ih =>
    unfold sortDesc at ih ⊢
    rw [List.foldr_cons]
    exact insertDesc_pairwise hd _ ih

/-- The top list is sorted by non-increasing score. -/
theorem top_pairwise (cs : List (String × Rat)) (N : Nat) :
    List.Pairwise (fun a b : String × Rat => b.2 ≤ a.2)
      (get_top_recommendations cs N) := by
  unfold get_top_recommendations
  exact List.Pairwise.sublist (List.take_sublist _ _) (sortDesc_pairwise cs)

/-- The top list has length at most `N`. -/
theorem top_length (cs : List (String × Rat)) (N : Nat) :
    (get_top_recommendations cs N).length ≤ N := by
  unfold get_top_recommendations
  simpa using List.length_take_le N _

/-- The top list keeps the combined dict's key uniqueness. -/
theorem top_keys_nodup (cs : List (String × Rat)) (N : Nat)
    (h : (cs.map Prod.fst).Nodup) :
    ((get_top_recommendations cs N).map Prod.fst).Nodup := by
  unfold get_top_recommendations
  have h2 : ((sortDesc cs).map Prod.fst).Nodup :=
    (((sortDesc_perm cs).map Prod.fst).nodup_iff).mpr h
  exact List.Nodup.sublist ((List.take_sublist N _).map Prod.fst) h2

/-- Mapping a component function over the enumerated list forgets the
enumeration. -/
theorem enumFrom_map_snd_comp {γ : Type} (f : String × Rat → γ) :
    ∀ (top : List (String × Rat)) (n : Nat),
      (top.enumFrom n).map (fun re => f re.2) = top.map f := by
  intro top
  induction top with
  | nil => intro n; rfl
  | cons hd tl ih =>
    intro n
    simp only [List.enumFrom, List.map_cons, ih]

/-- The item ids of `_add_explanations`'s output are those of the top
list. -/
theorem add_explanations_map_item (ctx : ExplanationCtx)
    (top : List (String × Rat)) (recs : List (String × List AdapterRec))
    (w : List (String × Rat)) :
    (add_explanations ctx top recs w).map Recommendation.item_id =
      top.map Prod.fst := by
  unfold add_explanations
  rw [List.map_map]
  exact enumFrom_map_snd_comp (fun p => p.1) top 1

/-- The scores of `_add_explanations`'s output are those of the top
list. -/
theorem add_explanations_map_score (ctx : ExplanationCtx)
    (top : List (String × Rat)) (recs : List (String × List AdapterRec))
    (w : List (String × Rat)) :
    (add_explanations ctx top recs w).map Recommendation.score =
      top.map Prod.snd := by
  unfold add_explanations
  rw [List.map_map]
  exact enumFrom_map_snd_comp (fun p => p.2) top 1

/-- The ranks of `_add_explanations`'s output are `1, 2, ...` by final
position. -/
theorem add_explanations_map_rank (ctx : ExplanationCtx)
    (recs : List (String × List AdapterRec)) (w : List (String × Rat)) :
    ∀ (top : List (String × Rat)) (n : Nat),
      ((top.enumFrom n).map (buildRec ctx recs w)).map Recommendation.rank =
        List.range' n top.length := by
  intro top
  induction top with
  | nil => intro n; rfl
  | cons hd tl ih =>
    intro n
    simp only [List.enumFrom, List.map_cons, List.length_cons, List.range'_succ]
    rw [ih]
    rfl

/-- `_add_explanations` preserves the length of the top list. -/
theorem add_explanations_length (ctx : ExplanationCtx)
    (top : List (String × Rat)) (recs : List (String × List AdapterRec))
    (w : List (String × Rat)) :
    (add_explanations ctx top recs w).length = top.length := by
  unfold add_explanations
  rw [List.length_map]
  induction top generalizing ctx with
  | nil => rfl
  | cons hd tl ih => simp [List.enumFrom, ih]

/-- Shape of the fusion tail for any gathered dict and weights. -/
theorem fuse_shape (ctx : ExplanationCtx)
    (recs : List (String × List AdapterRec)) (weights : List (String × Rat))
    (N : Nat) :
    (fuseGathered ctx recs weights N).length ≤ N ∧
    ((fuseGathered ctx recs weights N).map Recommendation.item_id).Nodup ∧
    (fuseGathered ctx recs weights N).map Recommendation.rank =
      List.range' 1 (fuseGathered ctx recs weights N).length ∧
    ((fuseGathered ctx recs weights N).map Recommendation.score).Pairwise (· ≥ ·) := by
  unfold fuseGathered
  refine ⟨?_, ?_, ?_, ?_⟩
  · rw [add_explanations_length]
    exact top_length _ N
  · rw [add_explanations_map_item]
    exact top_keys_nodup _ N (nodup_keys_combine recs weights)
  · rw [add_explanations_length]
    unfold add_explanations
    exact add_explanations_map_rank ctx recs weights _ 1
  · rw [add_explanations_map_score, List.pairwise_map]
    exact (top_pairwise (combine_recommendations recs weights) N).imp (fun h => h)

/-- C3: for every manager state, A/B setting, weight argument and any
gathered adapter outputs, the list returned by `hybrid_recommend` has
at most `N` entries, contains no two entries with the same `item_id`,
assigns ranks 1, 2, ... by final position, and has non-increasing
scores down the list. -/
theorem hybrid_recommend_shape (m : ABTestManager) (enable_ab : Bool)
    (default_weights : List (String × Rat)) (ctx : ExplanationCtx)
    (gathered : List (String × List AdapterRec)) (user_id : String) (N : Nat)
    (weights0 : Option (List (String × Rat))) :
    (hybrid_recommend m enable_ab default_weights ctx gathered user_id N
        weights0).1.length ≤ N ∧
    ((hybrid_recommend m enable_ab default_weights ctx gathered user_id N
        weights0).1.map Recommendation.item_id).Nodup ∧
    (hybrid_recommend m enable_ab default_weights ctx gathered user_id N
        weights0).1.map Recommendation.rank =
      List.range' 1 (hybrid_recommend m enable_ab default_weights ctx gathered
        user_id N weights0).1.length ∧
    ((hybrid_recommend m enable_ab default_weights ctx gathered user_id N
        weights0).1.map Recommendation.score).Pairwise (· ≥ ·) :=
  fuse_shape ctx _ _ N

/-! ## Claim C5: deterministic synthetic filler tier -/

/-- C5: with every upstream strategy empty and requested count 5 (hard
minimum 4), the endpoint returns exactly the fixed generic filler set
of 4 items with scores 0.7, 0.6, 0.5, 0.4 in that order, every item
marked as synthetic by the `generic_` item-id prefix (the marker the
endpoint itself uses to separate fillers from catalog courses); and the
filler tier appends items only when the prior tiers produced fewer than
the hard minimum of 4. -/
theorem interest_fallback_synthetic :
    finalRecommendations [] 5 = generic_courses ∧
    (finalRecommendations [] 5).map ApiRec.score = [7/10, 6/10, 5/10, 4/10] ∧
    ((finalRecommendations [] 5).all
      (fun r => "generic_".data.isPrefixOf r.item_id.data)) = true ∧
    (∀ prior : List ApiRec, 4 ≤ prior.length →
      genericFallbackTier prior = prior) := by
  refine ⟨by decide, by decide, by decide, ?_⟩
  intro prior h
  have h4 : ¬ prior.length < 4 := by omega
  by_cases h6 : prior.length < 6
  · unfold genericFallbackTier
    rw [if_pos h6]
    simp [generic_courses, h4]
  · unfold genericFallbackTier
    rw [if_neg h6]

/-- Witness for C5 on a concrete prior list of length 4. -/
theorem interest_fallback_synthetic_witness :
    genericFallbackTier
        [⟨"c1", 1, []⟩, ⟨"c2", 1, []⟩, ⟨"c3", 1, []⟩, ⟨"c4", 1, []⟩] =
      [⟨"c1", 1, []⟩, ⟨"c2", 1, []⟩, ⟨"c3", 1, []⟩, ⟨"c4", 1, []⟩] :=
  interest_fallback_synthetic.2.2.2
    [⟨"c1", 1, []⟩, ⟨"c2", 1, []⟩, ⟨"c3", 1, []⟩, ⟨"c4", 1, []⟩] (by decide)

/-! ## Claim C8: empty or zero-sum weight sets -/

/-- Counterexample to C8: a call with a supplied weight set summing to
zero does not return an error — the weights are used as-is, and with no
adapter outputs the call proceeds to the five fallback recommendations
(scores 0.5 each). -/
theorem zero_weights_proceeds_cex :
    splitTotal [("als", (0:Rat)), ("content", 0)] = 0 ∧
    ((hybrid_recommend ⟨[], [], []⟩ false
        [("als", 7/10), ("content", 2/10), ("pop", 1/10)] noCoursesCtx []
        "u1" 5 (some [("als", 0), ("content", 0)])).1.map
        Recommendation.item_id) =
      ["fallback_course_001", "fallback_course_002", "fallback_course_003",
       "fallback_course_004", "fallback_course_005"] ∧
    ((hybrid_recommend ⟨[], [], []⟩ false
        [("als", 7/10), ("content", 2/10), ("pop", 1/10)] noCoursesCtx []
        "u1" 5 (some [("als", 0), ("content", 0)])).1.map
        Recommendation.score) = [1/2, 1/2, 1/2, 1/2, 1/2] := by
  refine ⟨by decide, by decide, by decide⟩

/-- C8 (amended): an empty or zero-sum weight set is accepted silently:
the normalization step is skipped entirely (the weights pass through
unchanged) and the call proceeds to produce recommendations rather than
returning an error. -/
theorem zero_weights_not_rejected :
    (∀ weights : List (String × Rat), ¬ splitTotal weights > 0 →
        normalizeWeights weights = weights) ∧
    (hybrid_recommend ⟨[], [], []⟩ false
        [("als", 7/10), ("content", 2/10), ("pop", 1/10)] noCoursesCtx []
        "u1" 5 (some [("als", 0), ("content", 0)])).1.length = 5 := by
  constructor
  · intro w h
    simp only [normalizeWeights]
    rw [if_neg h]
  · decide

/-- Witness for C8 (amended) at a concrete zero-sum weight set. -/
theorem zero_weights_not_rejected_witness :
    normalizeWeights [("als", 0), ("content", 0)] = [("als", 0), ("content", 0)] :=
  zero_weights_not_rejected.1 [("als", 0), ("content", 0)] (by decide)
